import Mathlib

/-!
Verification of the `ruleshub` rule acquisition and retrieval pipeline of
mcp-devtools (`internal/tools/ruleshub`): a shallow embedding of the Go
source in Lean 4, followed by theorems settling the specification claims.

The repository contains two generations of the tool in the same package:

* the pipeline design: `types.go` (`AgentRule`, `RuleSource`, `FileSource`,
  `YamlRuleContent`, configuration structs), `parser.go` (`YamlRuleParser`),
  `loader.go` (`YamlRuleLoader`), `orchestrator.go`
  (`DefaultRuleLoaderOrchestrator`), `repository.go` (`InMemoryRepository`);
* the simplified single-file tool `ruleshub.go` (`RuleHubTool`), which keeps
  a `map[string]*Rule` loaded once from a directory and serves it from memory.

Modelling conventions, used throughout:

* A YAML rule file is modelled as already-lexed data: `YamlFile.invalid e`
  stands for bytes that `yaml.Unmarshal` rejects (with error text `e`), and
  `YamlFile.doc d` for bytes that deserialize to the document `d`.  A field
  absent from the document is `none` / the empty string, matching Go's zero
  values.  A `rule:` field holding a non-string value is not modelled (no
  claim depends on it).
* The file system is an association list from absolute path to file content;
  a missing entry models a nonexistent/unreadable file, with the Linux ENOENT
  text substituted into wrapped error messages.
* Errors are the literal Go error strings (`fmt.Errorf` formats applied);
  `ctx.Err()` after cancellation is the string "context canceled".
* A `context.Context` is modelled cooperatively: `Ctx := Option Nat`, where
  `some k` means the k-th cancellation check (in program order, counted by an
  explicit tick argument) and all later ones observe cancellation, and `none`
  means the context is never cancelled.  Functions whose relative check order
  matters (loader and parser) take the tick explicitly; the remaining
  functions perform their single check at tick 0.
* Go maps are modelled as association lists (insert replaces the previous
  binding; lookup finds the unique binding).  Go's randomized map iteration
  order is fixed to list order in the model; no claim below depends on it.
* Go's unicode-aware `strings.ToLower` is modelled on the ASCII range
  (`Char.toLower`), which agrees with Go on every id appearing here.
-/

/-- Equality of modelled Go `(value, error)` results is decidable, so that
concrete runs of the embedded functions can be checked by `decide`. -/
instance {e a : Type} [DecidableEq e] [DecidableEq a] : DecidableEq (Except e a) := fun x y =>
  match x, y with
  | .error u, .error v =>
      decidable_of_iff (u = v) (by constructor <;> (intro h; first | rw [h] | injection h))
  | .ok u, .ok v =>
      decidable_of_iff (u = v) (by constructor <;> (intro h; first | rw [h] | injection h))
  | .error _, .ok _ => isFalse (fun h => Except.noConfusion h)
  | .ok _, .error _ => isFalse (fun h => Except.noConfusion h)

/-- Cooperative cancellation: `none` = never cancelled, `some k` = the
checks numbered `k` and later observe cancellation. -/
abbrev Ctx := Option Nat

/-- Whether the cancellation check performed at tick `t` observes a
cancelled context (`select { case <-ctx.Done() ... }` in the Go source). -/
def ctxDone (ctx : Ctx) (t : Nat) : Bool :=
  match ctx with
  | none => false
  | some k => decide (k ≤ t)

/-- The deserialized payload of one YAML rule file: fields `id`,
`description`, `language`, `tags`, `rule` (`YamlRuleContent` in types.go /
the yaml tags of `Rule` in ruleshub.go).  `language` is `""` and `tags` is
`none` when absent, matching Go zero values; `rule = none` models an absent
content field. -/
structure YamlDoc where
  id : String
  description : String
  language : String
  tags : Option (List String)
  rule : Option String
deriving DecidableEq

/-- One file on disk, as seen through `yaml.Unmarshal`: either malformed
YAML (with the unmarshal error text) or a well-formed document. -/
inductive YamlFile where
  | invalid (errText : String)
  | doc (d : YamlDoc)
deriving DecidableEq

/-- The file system: absolute path → file content; `none` = the path does
not exist (or cannot be read). -/
abbrev FileSys := List (String × YamlFile)

/-- `os.ReadFile` / `os.Stat`: look the path up in the file system. -/
def readFs (fs : FileSys) (path : String) : Option YamlFile :=
  (fs.find? (fun e => e.1 == path)).map (fun e => e.2)

/-! ## types.go (`src/unnamed/part_004`): `AgentRule`, `RuleSource`,
`FileSource`, configuration structs -/

/-- The `RuleSource` interface; the one variant in scope is the
file-backed `FileSource{FilePath}`. -/
inductive RuleSource where
  | file (FilePath : String)
deriving DecidableEq

/-- `AgentRule` (types.go): rule metadata plus its attached content
source. -/
structure AgentRule where
  RuleId : String
  Description : String
  Language : String
  Tags : List String
  Source : RuleSource
deriving DecidableEq

/-- `FileSource.GetRuleContent` (types.go lines 41-70): empty-path guard,
cancellation check, re-read the backing file, re-parse it as a generic
YAML mapping, and return its `rule` field.  Performed anew on every
call — nothing is cached in the model, exactly as in the source. -/
def FileSource.GetRuleContent (ctx : Ctx) (fs : FileSys) (path : String) :
    Except String String :=
  if path = "" then .error "file path is not set"
  else if ctxDone ctx 0 then .error "context canceled"
  else match readFs fs path with
  | none =>
      .error ("error reading file: open " ++ path ++ ": no such file or directory")
  | some (.invalid e) => .error ("error parsing YAML: " ++ e)
  | some (.doc d) =>
      match d.rule with
      | none => .error "rule content not found or not a string"
      | some r => .ok r

/-- `RuleSourceOptions` (types.go): a loader type tag plus a settings
mapping.  Settings values are strings in the model: the environment
discovery path only ever stores strings, so the `.(string)` assertion in
the loader always succeeds. -/
structure RuleSourceOptions where
  LoaderType : String
  Settings : List (String × String)
deriving DecidableEq

/-- Settings map lookup (`options.Settings["Path"]`). -/
def lookupSetting (s : List (String × String)) (k : String) : Option String :=
  (s.find? (fun e => e.1 == k)).map (fun e => e.2)

/-! ## parser.go (second file of the orchestrator.go bundle):
`YamlRuleParser` -/

/-- Lines 204-238 of `YamlRuleParser.ParseRule`: deserialize the already
read file into `YamlRuleContent`, validate `id`/`description`/`rule`,
default `tags`, and build the `AgentRule` with a `FileSource` bound to the
same path.  Note: the id is NOT normalized here (compare
`RuleHubTool.parseRuleFile`). -/
def YamlRuleParser.parseContent (path : String) : YamlFile → Except String AgentRule
  | .invalid e => .error ("parsing YAML: " ++ e)
  | .doc d =>
    if d.id = "" then .error ("rule ID is required in file: " ++ path)
    else if d.description = "" then
      .error ("rule description is required in file: " ++ path)
    else if d.rule.getD "" = "" then
      .error ("rule content is required in file: " ++ path)
    else .ok { RuleId := d.id, Description := d.description,
               Language := d.language, Tags := d.tags.getD [],
               Source := .file path }

/-- `YamlRuleParser.ParseRule` (parser.go lines 179-239): cancellation
check (at tick `t`), empty-path guard, stat, read, then
`YamlRuleParser.parseContent`.  In the model a file that exists always
reads successfully, so `os.Stat` and `os.ReadFile` collapse into one
lookup. -/
def YamlRuleParser.ParseRule (ctx : Ctx) (t : Nat) (fs : FileSys) (path : String) :
    Except String AgentRule :=
  if ctxDone ctx t then .error "context canceled"
  else if path = "" then .error "file path is required"
  else match readFs fs path with
  | none => .error ("file does not exist: " ++ path)
  | some f => YamlRuleParser.parseContent path f

/-! ## repository.go: `InMemoryRepository` -/

/-- The repository's backing `map[string]AgentRule`. -/
abbrev RuleMap := List (String × AgentRule)

/-- Go map insert `r.rules[rule.RuleId] = rule`: replaces any previous
binding of the key. -/
def mapInsert (m : RuleMap) (k : String) (v : AgentRule) : RuleMap :=
  (k, v) :: m.filter (fun e => e.1 != k)

/-- Go map lookup `rule, ok := r.rules[ruleId]`. -/
def mapFind (m : RuleMap) (k : String) : Option AgentRule :=
  (m.find? (fun e => e.1 == k)).map (fun e => e.2)

/-- `InMemoryRepository.AddRuleMetadata` (repository.go lines 38-58):
cancellation check, reject an empty id, insert (upsert) under the id. -/
def InMemoryRepository.AddRuleMetadata (ctx : Ctx) (m : RuleMap) (rule : AgentRule) :
    Except String RuleMap :=
  if ctxDone ctx 0 then .error "context canceled"
  else if rule.RuleId = "" then .error "rule ID is required"
  else .ok (mapInsert m rule.RuleId rule)

/-- `InMemoryRepository.AddRulesMetadata` (repository.go lines 61-85):
one cancellation check, then per-element upsert; elements with an empty
id are skipped rather than aborting the batch. -/
def InMemoryRepository.AddRulesMetadata (ctx : Ctx) (m : RuleMap)
    (rules : List AgentRule) : Except String RuleMap :=
  if ctxDone ctx 0 then .error "context canceled"
  else .ok (rules.foldl
    (fun acc rule => if rule.RuleId = "" then acc else mapInsert acc rule.RuleId rule) m)

/-- `InMemoryRepository.GetRuleMetadataById` (repository.go lines 88-112):
cancellation check, reject an empty query id with an error, otherwise a
plain map lookup whose miss is the normal `(nil, nil)` outcome. -/
def InMemoryRepository.GetRuleMetadataById (ctx : Ctx) (m : RuleMap) (ruleId : String) :
    Except String (Option AgentRule) :=
  if ctxDone ctx 0 then .error "context canceled"
  else if ruleId = "" then .error "rule ID is required"
  else .ok (mapFind m ruleId)

/-- `InMemoryRepository.GetAllRulesMetadata` (repository.go lines
115-134): cancellation check, then a copied slice of all stored rules
(Go's random map order fixed to list order in the model). -/
def InMemoryRepository.GetAllRulesMetadata (ctx : Ctx) (m : RuleMap) :
    Except String (List AgentRule) :=
  if ctxDone ctx 0 then .error "context canceled"
  else .ok (m.map (fun e => e.2))

/-! ## ruleshub.go: the simplified `RuleHubTool` -/

/-- `Rule` (ruleshub.go lines 21-28): metadata plus the content itself,
captured at parse time, and the source path kept for reference. -/
structure Rule where
  ID : String
  Description : String
  Language : String
  Tags : List String
  Content : String
  FilePath : String
deriving DecidableEq

/-- `strings.ReplaceAll(id, " ", "-")`: single-character replacement, so a
per-character map. -/
def replaceSpaces (s : String) : String :=
  ⟨s.data.map (fun c => if c = ' ' then '-' else c)⟩

/-- `strings.ToLower` restricted to the ASCII range. -/
def lowerAscii (s : String) : String :=
  ⟨s.data.map Char.toLower⟩

/-- The id normalization of ruleshub.go line 210:
`strings.ToLower(strings.ReplaceAll(id, " ", "-"))`. -/
def normalizeId (s : String) : String := lowerAscii (replaceSpaces s)

/-- `RuleHubTool.parseRuleFile` (ruleshub.go lines 187-221): read, YAML
unmarshal straight into `Rule`, validate the three mandatory fields on
the RAW values, then normalize the id, record the file path and default
the tags. -/
def RuleHubTool.parseRuleFile (fs : FileSys) (path : String) : Except String Rule :=
  match readFs fs path with
  | none =>
      .error ("reading file: open " ++ path ++ ": no such file or directory")
  | some (.invalid e) => .error ("parsing YAML: " ++ e)
  | some (.doc d) =>
    if d.id = "" then .error "rule ID is required"
    else if d.description = "" then .error "rule description is required"
    else if d.rule.getD "" = "" then .error "rule content is required"
    else .ok { ID := normalizeId d.id, Description := d.description,
               Language := d.language, Tags := d.tags.getD [],
               Content := d.rule.getD "", FilePath := path }

/-- The simplified tool's in-memory store `map[string]*Rule`. -/
abbrev RulesMap := List (String × Rule)

/-- Go map insert `t.rules[rule.ID] = rule`. -/
def toolInsert (m : RulesMap) (k : String) (v : Rule) : RulesMap :=
  (k, v) :: m.filter (fun e => e.1 != k)

/-- Go map lookup `rule, exists := t.rules[ruleId]`. -/
def toolFind (m : RulesMap) (k : String) : Option Rule :=
  (m.find? (fun e => e.1 == k)).map (fun e => e.2)

/-- The per-file loop of `RuleHubTool.loadRulesFromDirectory` (ruleshub.go
lines 166-181), applied to the glob result `files` (the `*.yaml` then
`*.yml` paths of the rules directory): before each file a cancellation
check (tick `t`, incrementing per file); a parse failure is logged and
skipped; a parsed rule is inserted under its (already normalized) id.  On
cancellation the insertions made so far are kept — the Go method mutates
`t.rules` in place — and `ctx.Err()` is returned alongside them. -/
def RuleHubTool.loadRulesFromDirectory (ctx : Ctx) (t : Nat) (fs : FileSys)
    (files : List String) (m : RulesMap) : RulesMap × Option String :=
  match files with
  | [] => (m, none)
  | path :: rest =>
    if ctxDone ctx t then (m, some "context canceled")
    else match RuleHubTool.parseRuleFile fs path with
      | .error _ => RuleHubTool.loadRulesFromDirectory ctx (t + 1) fs rest m
      | .ok r =>
          RuleHubTool.loadRulesFromDirectory ctx (t + 1) fs rest (toolInsert m r.ID r)

/-- `RuleHubTool.getRuleContentById` (ruleshub.go lines 224-245): a missing
or empty `ruleId` argument is rejected; the id is looked up in the
in-memory map AS GIVEN (no normalization of the query, no file access);
a miss is the "rule not found" error; a hit returns the stored rule —
whose `Content` was captured at load time — in full.  JSON serialization
of the result is out of scope. -/
def RuleHubTool.getRuleContentById (m : RulesMap) (ruleId : Option String) :
    Except String Rule :=
  match ruleId with
  | none => .error "ruleId parameter is required for GetRuleContentById"
  | some rid =>
    if rid = "" then .error "ruleId parameter is required for GetRuleContentById"
    else match toolFind m rid with
    | none => .error ("rule not found: " ++ rid)
    | some r => .ok r

/-- The JSON values appearing in a metadata entry: strings and arrays of
strings. -/
inductive Json where
  | str (s : String)
  | arr (elems : List String)
deriving DecidableEq

/-- One element of the `rules` array built by
`RuleHubTool.getAllRulesMetadata` (ruleshub.go lines 255-260): exactly the
four keys `ruleId`, `description`, `language`, `tags` — no `content`. -/
def ruleMetadata (r : Rule) : List (String × Json) :=
  [("ruleId", .str r.ID), ("description", .str r.Description),
   ("language", .str r.Language), ("tags", .arr r.Tags)]

/-- `RuleHubTool.getAllRulesMetadata` (ruleshub.go lines 248-275): the
`rules` array of per-rule metadata objects plus the `count` field, as the
pair (rules, count). -/
def RuleHubTool.getAllRulesMetadata (m : RulesMap) : List (List (String × Json)) × Nat :=
  (m.map (fun e => ruleMetadata e.2), m.length)

/-! ## loader.go: `YamlRuleLoader`

The directory structure visible to the loader is a mapping from directory
path to the result of `filepath.Glob(filepath.Join(path, "*.yaml"))`: the
`.yaml` paths directly under that directory, in the lexicographically
sorted order Glob returns.  File contents are read through the same
`FileSys` the parser uses.  Go's `(rules []AgentRule, err error)` pair is
modelled as `List AgentRule × Option String` (`nil` slice = `[]`). -/

/-- The per-file loop of `YamlRuleLoader.LoadRules` (loader.go lines
83-101): before each file a cancellation check at tick `t`; the parser
performs its own entry check at tick `t + 1`; a parse failure (including
a cancellation observed inside the parser) is logged and skipped; on a
cancellation observed by the loader's own check the whole call returns
`nil, ctx.Err()` — discarding `acc`. -/
def YamlRuleLoader.loadLoop (ctx : Ctx) (t : Nat) (fs : FileSys)
    (files : List String) (acc : List AgentRule) : List AgentRule × Option String :=
  match files with
  | [] => (acc, none)
  | path :: rest =>
    if ctxDone ctx t then ([], some "context canceled")
    else match YamlRuleParser.ParseRule ctx (t + 1) fs path with
      | .error _ => YamlRuleLoader.loadLoop ctx (t + 2) fs rest acc
      | .ok r => YamlRuleLoader.loadLoop ctx (t + 2) fs rest (acc ++ [r])

/-- `YamlRuleLoader.LoadRules` (loader.go lines 46-104): entry
cancellation check (tick 0), option validation (`LoaderType` non-empty, a
non-empty `Path` setting), directory existence, glob, then the per-file
loop starting at tick 1. -/
def YamlRuleLoader.LoadRules (ctx : Ctx) (options : RuleSourceOptions)
    (dirs : List (String × List String)) (fs : FileSys) :
    List AgentRule × Option String :=
  if ctxDone ctx 0 then ([], some "context canceled")
  else if options.LoaderType = "" then ([], some "loader type is required")
  else match lookupSetting options.Settings "Path" with
  | none => ([], some "path setting is required")
  | some path =>
    if path = "" then ([], some "path must be a non-empty string")
    else match (dirs.find? (fun e => e.1 == path)).map (fun e => e.2) with
    | none => ([], some ("directory not found: " ++ path))
    | some files => YamlRuleLoader.loadLoop ctx 1 fs files []

/-! ## orchestrator.go: configuration discovery and
`DefaultRuleLoaderOrchestrator` -/

/-- The process environment: key/value pairs.  `os.Environ()` yields the
`"KEY=value"` strings; since an environment key never contains `=`, the
prefix tests and `SplitN(env, "=", 2)` in the Go source recover exactly
the key and the value, so the model works on the pairs directly.  Keys
are unique, as they are in a real environment. -/
abbrev Env := List (String × String)

/-- `os.Getenv`: the value bound to `k`, or `""` when unset. -/
def getenv (env : Env) (k : String) : String :=
  ((env.find? (fun e => e.1 == k)).map (fun e => e.2)).getD ""

/-- The environment-variable convention's root: orchestrator.go line 97. -/
def srcRoot : String := "RULESHUB_SOURCES_"

/-- `strings.HasPrefix`. -/
def hasPfx (s p : String) : Bool := p.data.isPrefixOf s.data

/-- `strings.TrimPrefix`: drops `p` only when it is present. -/
def trimPfx (s p : String) : String :=
  if hasPfx s p then ⟨s.data.drop p.data.length⟩ else s

/-- `strings.SplitN(key, "_", 2)[0]`: the segment before the first
underscore (the whole string when it has none). -/
def idxSeg (s : String) : String := ⟨s.data.takeWhile (fun c => c != '_')⟩

/-- The numeric value of a non-empty all-digit character list. -/
def digitsNat? (l : List Char) : Option Nat :=
  if l.isEmpty || !(l.all Char.isDigit) then none
  else some (l.foldl (fun a c => a * 10 + (c.toNat - 48)) 0)

/-- `strconv.Atoi` on the character list: an optional single sign followed
by at least one digit (overflow is not modelled; no index here approaches
it). -/
def atoiList : List Char → Option Int
  | [] => none
  | c :: rest =>
    if c = '-' then (digitsNat? rest).map (fun n => -(n : Int))
    else if c = '+' then (digitsNat? rest).map (fun n => (n : Int))
    else (digitsNat? (c :: rest)).map (fun n => (n : Int))

/-- `strconv.Atoi`. -/
def atoi? (s : String) : Option Int := atoiList s.data

/-- The first pass of `loadConfigFromEnv` (orchestrator.go lines 96-115):
every environment key carrying the sources root contributes the integer
value of its index segment; keys whose segment `strconv.Atoi` rejects are
skipped.  Go collects the indices in a `map[int]bool`, whose iteration
order is unspecified; the model fixes first-occurrence order (no claim
depends on the order). -/
def collectIdx (env : Env) : List Int :=
  (env.filterMap (fun kv =>
    if hasPfx kv.1 srcRoot then atoi? (idxSeg (trimPfx kv.1 srcRoot)) else none)).dedup

/-- The per-index body of `loadConfigFromEnv` (orchestrator.go lines
118-149): the index's `LOADERTYPE` variable is mandatory — discovery
fails without it — and its `SETTINGS_<key>` variables become the settings
mapping. -/
def loadSrc (env : Env) (index : Int) : Except String RuleSourceOptions :=
  if getenv env (srcRoot ++ toString index ++ "_LOADERTYPE") = "" then
    .error ("loader type not specified for source " ++ toString index)
  else
    .ok { LoaderType := getenv env (srcRoot ++ toString index ++ "_LOADERTYPE"),
          Settings := env.filterMap (fun kv =>
            if hasPfx kv.1 (srcRoot ++ toString index ++ "_SETTINGS_") then
              some (trimPfx kv.1 (srcRoot ++ toString index ++ "_SETTINGS_"), kv.2)
            else none) }

/-- The second pass of `loadConfigFromEnv`: each discovered index in turn;
the first missing `LOADERTYPE` aborts the whole discovery. -/
def loadSources (env : Env) : List Int → Except String (List RuleSourceOptions)
  | [] => .ok []
  | i :: rest =>
    match loadSrc env i with
    | .error e => .error e
    | .ok s => (loadSources env rest).map (fun l => s :: l)

/-- `DefaultRuleLoaderOrchestrator.loadConfigFromEnv` (orchestrator.go
lines 91-152). -/
def loadConfigFromEnv (env : Env) : Except String (List RuleSourceOptions) :=
  loadSources env (collectIdx env)

/-- The `RuleLoader` interface (loader.go lines 12-21), as a record of its
capabilities; `LoadRules` is already closed over whatever world the
concrete loader reads. -/
structure RuleLoader where
  LoaderType : String
  CanHandle : String → Bool
  LoadRules : Ctx → RuleSourceOptions → List AgentRule × Option String

/-- Loader selection (orchestrator.go lines 63-69): the first registered
loader whose `CanHandle` accepts the source's type tag. -/
def findLoader (loaders : List RuleLoader) (lt : String) : Option RuleLoader :=
  loaders.find? (fun l => l.CanHandle lt)

/-- The per-source loop of `DefaultRuleLoaderOrchestrator.LoadRules`
(orchestrator.go lines 52-85): before each source a cancellation check; a
source with no matching loader is skipped; a failed loader call is
diagnosed and skipped; successful rules are concatenated.  The tick
passed to a loader restarts its own check numbering. -/
def orchLoop (ctx : Ctx) (loaders : List RuleLoader) (t : Nat)
    (srcs : List RuleSourceOptions) (acc : List AgentRule) :
    Except String (List AgentRule) :=
  match srcs with
  | [] => .ok acc
  | options :: rest =>
    if ctxDone ctx t then .error "context canceled"
    else match findLoader loaders options.LoaderType with
    | none => orchLoop ctx loaders (t + 1) rest acc
    | some loader =>
      match loader.LoadRules ctx options with
      | (_, some _) => orchLoop ctx loaders (t + 1) rest acc
      | (rules, none) => orchLoop ctx loaders (t + 1) rest (acc ++ rules)

/-- `DefaultRuleLoaderOrchestrator.LoadRules` (orchestrator.go lines
32-88): entry cancellation check, configuration discovery (failure is
wrapped and fatal), the empty-configuration guard — the one fatal
condition — then the per-source loop. -/
def DefaultRuleLoaderOrchestrator.LoadRules (ctx : Ctx) (loaders : List RuleLoader)
    (env : Env) : Except String (List AgentRule) :=
  if ctxDone ctx 0 then .error "context canceled"
  else match loadConfigFromEnv env with
  | .error e => .error ("loading configuration: " ++ e)
  | .ok sources =>
    if sources.isEmpty then .error "no rule sources configured"
    else orchLoop ctx loaders 1 sources []

/-! ## General lemmas about the embedding -/

/-- An uncancellable context never observes cancellation,
at any tick. -/
theorem ctxDone_none (t : Nat) : ctxDone none t = false := rfl

/-- `normalizeId` acts character-wise. -/
theorem normalizeId_data (s : String) :
    (normalizeId s).data = s.data.map (fun c => (if c = ' ' then '-' else c).toLower) := by
  simp [normalizeId, lowerAscii, replaceSpaces]

/-- Normalization never turns a non-empty id into an empty one. -/
theorem normalizeId_ne_empty {s : String} (h : s ≠ "") : normalizeId s ≠ "" := by
  intro e
  apply h
  apply String.ext
  have hd : (normalizeId s).data = [] := by rw [e]
  rw [normalizeId_data] at hd
  simpa using hd

/-! ## Claim C6 -/

/-- C6: whenever the set of Source Configurations discovered from the
environment is empty, `DefaultRuleLoaderOrchestrator.LoadRules` fails with
the `no rule sources configured` error (the spec's `NoSourcesConfigured`):
the empty configuration is fatal to the load attempt, not skipped with a
diagnostic. -/
theorem C6_empty_sources_fatal (env : Env) (loaders : List RuleLoader)
    (h : loadConfigFromEnv env = .ok []) :
    DefaultRuleLoaderOrchestrator.LoadRules none loaders env =
      .error "no rule sources configured" := by
  unfold DefaultRuleLoaderOrchestrator.LoadRules
  rw [ctxDone_none, h]
  rfl

/-- Witness for C6: an empty environment discovers no sources, and the
orchestrator indeed fails with the fatal error. -/
theorem C6_empty_sources_fatal_witness :
    DefaultRuleLoaderOrchestrator.LoadRules none [] [] =
      .error "no rule sources configured" :=
  C6_empty_sources_fatal [] [] rfl

/-! ## Claim C7 -/

/-- C7 counterexample: the empty id was never inserted into a fresh
repository (it can never be inserted at all), yet
`InMemoryRepository.GetRuleMetadataById` rejects it with the validation
error `rule ID is required` instead of returning the absent outcome
`.ok none` — refuting the claim as stated for the id `""`. -/
theorem C7_empty_id_errors_counterexample :
    InMemoryRepository.GetRuleMetadataById none ([] : RuleMap) "" =
        .error "rule ID is required"
      ∧ (Except.error "rule ID is required" : Except String (Option AgentRule)) ≠
        .ok none := by
  constructor
  · rfl
  · intro h
    exact Except.noConfusion h

/-- C7 (amended): for every NON-EMPTY id that is not present in the
repository, `GetRuleMetadataById` returns the absent outcome `.ok none`
rather than an error; the empty id — which can never be inserted — is
instead rejected with a validation error. -/
theorem C7_absent_id_not_error (m : RuleMap) (rid : String)
    (hne : rid ≠ "") (habs : mapFind m rid = none) :
    InMemoryRepository.GetRuleMetadataById none m rid = .ok none := by
  unfold InMemoryRepository.GetRuleMetadataById
  rw [ctxDone_none, if_neg hne, habs]
  rfl

/-- Witness for C7: a concrete non-empty id absent from a concrete
repository yields the absent outcome. -/
theorem C7_absent_id_not_error_witness :
    InMemoryRepository.GetRuleMetadataById none
      [("present", { RuleId := "present", Description := "d", Language := "",
                     Tags := [], Source := .file "/r/p.yaml" })] "missing" = .ok none :=
  C7_absent_id_not_error _ "missing" (by decide) (by decide)

/-! ## Claim C8 -/

/-- C8: every element of the `rules` array returned by
`RuleHubTool.getAllRulesMetadata` carries exactly the keys `ruleId`,
`description`, `language` and `tags`, in that order — in particular the
`content` key never appears, for any populated store. -/
theorem C8_metadata_excludes_content (m : RulesMap) (md : List (String × Json))
    (h : md ∈ (RuleHubTool.getAllRulesMetadata m).1) :
    md.map Prod.fst = ["ruleId", "description", "language", "tags"]
      ∧ "content" ∉ md.map Prod.fst := by
  have hm : ∃ e ∈ m, ruleMetadata e.2 = md := by
    simpa [RuleHubTool.getAllRulesMetadata] using h
  obtain ⟨e, _, rfl⟩ := hm
  constructor
  · rfl
  · show "content" ∉ ["ruleId", "description", "language", "tags"]
    decide

/-- A concrete stored rule used by the C8 witness. -/
def c8rule : Rule :=
  { ID := "r1", Description := "d", Language := "go",
    Tags := ["t"], Content := "body", FilePath := "/r/a.yaml" }

/-- A concrete populated store used by the C8 witness. -/
def c8store : RulesMap := [("r1", c8rule)]

/-- Witness for C8: the metadata entry of a concrete one-rule store has
exactly the four metadata keys and no `content` key. -/
theorem C8_metadata_excludes_content_witness :
    (ruleMetadata c8rule).map Prod.fst = ["ruleId", "description", "language", "tags"]
      ∧ "content" ∉ (ruleMetadata c8rule).map Prod.fst :=
  C8_metadata_excludes_content c8store (ruleMetadata c8rule)
    (by simp [RuleHubTool.getAllRulesMetadata, c8store])

/-! ## The rule built by a successful `RuleHubTool.parseRuleFile` -/

/-- The `Rule` that `RuleHubTool.parseRuleFile` returns for the document
`d` read from `path`: normalized id, defaulted tags, the `rule:` field
captured as `Content`, and the source path recorded. -/
def parsedRule (path : String) (d : YamlDoc) : Rule :=
  { ID := normalizeId d.id, Description := d.description, Language := d.language,
    Tags := d.tags.getD [], Content := d.rule.getD "", FilePath := path }

/-- `RuleHubTool.parseRuleFile` on a readable, well-formed, valid document
returns exactly `parsedRule`. -/
theorem parseRuleFile_ok {fs : FileSys} {path : String} {d : YamlDoc}
    (hf : readFs fs path = some (.doc d)) (hid : d.id ≠ "")
    (hdesc : d.description ≠ "") (hrule : d.rule.getD "" ≠ "") :
    RuleHubTool.parseRuleFile fs path = .ok (parsedRule path d) := by
  unfold RuleHubTool.parseRuleFile
  rw [hf]
  simp only [if_neg hid, if_neg hdesc, if_neg hrule]
  rfl

/-- Loading a directory holding the single valid rule file `path` leaves
the store with that one rule, keyed by its normalized id. -/
theorem loadSingle_state {fs : FileSys} {path : String} {d : YamlDoc}
    (hf : readFs fs path = some (.doc d)) (hid : d.id ≠ "")
    (hdesc : d.description ≠ "") (hrule : d.rule.getD "" ≠ "") :
    RuleHubTool.loadRulesFromDirectory none 0 fs [path] [] =
      ([(normalizeId d.id, parsedRule path d)], none) := by
  unfold RuleHubTool.loadRulesFromDirectory
  rw [ctxDone_none, parseRuleFile_ok hf hid hdesc hrule]
  rfl

/-- Looking a key up right after inserting it returns the inserted rule. -/
theorem toolFind_single (k : String) (r : Rule) : toolFind [(k, r)] k = some r := by
  simp [toolFind]

/-! ## Claim C3 -/

/-- C3 counterexample: `YamlRuleParser.ParseRule` (the pipeline Parser the
claim cites first) accepts the document with id `"Go Formatting"` and
returns that id UNCHANGED — not lower-cased, spaces kept — refuting the
claim that every accepted document yields a normalized id. -/
theorem C3_parser_id_unnormalized_counterexample :
    YamlRuleParser.ParseRule none 0
        [("/r/f.yaml", .doc { id := "Go Formatting", description := "x",
                              language := "", tags := none, rule := some "y" })]
        "/r/f.yaml"
      = .ok { RuleId := "Go Formatting", Description := "x", Language := "",
              Tags := [], Source := .file "/r/f.yaml" }
    ∧ normalizeId "Go Formatting" = "go-formatting"
    ∧ "Go Formatting" ≠ "go-formatting" := by
  refine ⟨by decide, by decide, by decide⟩

/-- C3 (amended): the simplified tool's parser `RuleHubTool.parseRuleFile`
does return a normalized id (the document id lower-cased with spaces
replaced by hyphens) for every document it accepts; the pipeline parser
`YamlRuleParser.ParseRule` returns the document id unchanged. -/
theorem C3_parseRuleFile_normalizes_id (fs : FileSys) (path : String) (d : YamlDoc)
    (hf : readFs fs path = some (.doc d)) (hid : d.id ≠ "")
    (hdesc : d.description ≠ "") (hrule : d.rule.getD "" ≠ "") :
    RuleHubTool.parseRuleFile fs path = .ok (parsedRule path d)
      ∧ (parsedRule path d).ID = normalizeId d.id :=
  ⟨parseRuleFile_ok hf hid hdesc hrule, rfl⟩

/-- A concrete rule file for the C3 witness. -/
def c3doc : YamlDoc :=
  { id := "Go Formatting", description := "x", language := "go",
    tags := some ["fmt"], rule := some "y" }

/-- Witness for C3 (amended): the simplified parser maps the concrete id
`"Go Formatting"` to `"go-formatting"`. -/
theorem C3_parseRuleFile_normalizes_id_witness :
    RuleHubTool.parseRuleFile [("/r/f.yaml", .doc c3doc)] "/r/f.yaml"
        = .ok (parsedRule "/r/f.yaml" c3doc)
      ∧ (parsedRule "/r/f.yaml" c3doc).ID = normalizeId c3doc.id :=
  C3_parseRuleFile_normalizes_id [("/r/f.yaml", .doc c3doc)] "/r/f.yaml" c3doc
    (by decide) (by decide) (by decide) (by decide)

/-! ## Claim C1 -/

/-- The rule file as it was at load time (content `"old"`). -/
def c1docOld : YamlDoc :=
  { id := "r1", description := "d", language := "", tags := none, rule := some "old" }

/-- The same rule file after an external edit (content `"new"`). -/
def c1docNew : YamlDoc :=
  { id := "r1", description := "d", language := "", tags := none, rule := some "new" }

/-- The file system at load time. -/
def c1fsOld : FileSys := [("/rules/a.yaml", .doc c1docOld)]

/-- The file system at retrieval time, after the external edit. -/
def c1fsNew : FileSys := [("/rules/a.yaml", .doc c1docNew)]

/-- The tool's store after loading the directory against `c1fsOld`. -/
def c1state : RulesMap :=
  (RuleHubTool.loadRulesFromDirectory none 0 c1fsOld ["/rules/a.yaml"] []).1

/-- C1 counterexample: after the backing file is edited from `"old"` to
`"new"`, `RuleHubTool.getRuleContentById` still serves `"old"` — the
content captured at load time — while the rule's Content Source
(`FileSource.GetRuleContent`), invoked at retrieval time against the
current file system, produces `"new"`.  The retrieval function does not
even take a file system: the backing file is NOT re-read on each call,
external edits are NOT visible, and Content Source errors cannot reach
the caller — refuting the claim. -/
theorem C1_content_not_refetched_counterexample :
    RuleHubTool.getRuleContentById c1state (some "r1")
        = .ok { ID := "r1", Description := "d", Language := "", Tags := [],
                Content := "old", FilePath := "/rules/a.yaml" }
      ∧ FileSource.GetRuleContent none c1fsNew "/rules/a.yaml" = .ok "new"
      ∧ ("old" : String) ≠ "new" := by
  refine ⟨by decide, by decide, by decide⟩

/-- C1 (amended): for every rule present in the store,
`RuleHubTool.getRuleContentById` returns the stored rule whose `Content`
is the text parsed from the backing file when the directory was loaded;
retrieval reads only the in-memory map, never invokes the rule's Content
Source, and is therefore unaffected by the current state of the backing
file. -/
theorem C1_content_served_from_memory (fs : FileSys) (path : String) (d : YamlDoc)
    (hf : readFs fs path = some (.doc d)) (hid : d.id ≠ "")
    (hdesc : d.description ≠ "") (hrule : d.rule.getD "" ≠ "") :
    RuleHubTool.getRuleContentById
        (RuleHubTool.loadRulesFromDirectory none 0 fs [path] []).1
        (some (normalizeId d.id))
      = .ok (parsedRule path d) := by
  rw [loadSingle_state hf hid hdesc hrule]
  unfold RuleHubTool.getRuleContentById
  simp only [if_neg (normalizeId_ne_empty hid), toolFind_single]

/-- Witness for C1 (amended), at a concrete file. -/
theorem C1_content_served_from_memory_witness :
    RuleHubTool.getRuleContentById
        (RuleHubTool.loadRulesFromDirectory none 0 c1fsOld ["/rules/a.yaml"] []).1
        (some (normalizeId c1docOld.id))
      = .ok (parsedRule "/rules/a.yaml" c1docOld) :=
  C1_content_served_from_memory c1fsOld "/rules/a.yaml" c1docOld
    (by decide) (by decide) (by decide) (by decide)

/-! ## Claim C9 -/

/-- C9: lookup is an exact match on the stored key and the query id is not
normalized: a rule whose document id needs normalization is stored under
the normalized id, so `getRuleContentById` with the original id yields the
not-found error while the normalized id succeeds. -/
theorem C9_lookup_exact_match (fs : FileSys) (path : String) (d : YamlDoc)
    (hf : readFs fs path = some (.doc d)) (hid : d.id ≠ "")
    (hdesc : d.description ≠ "") (hrule : d.rule.getD "" ≠ "")
    (hnn : normalizeId d.id ≠ d.id) :
    RuleHubTool.getRuleContentById
        (RuleHubTool.loadRulesFromDirectory none 0 fs [path] []).1 (some d.id)
      = .error ("rule not found: " ++ d.id)
    ∧ RuleHubTool.getRuleContentById
        (RuleHubTool.loadRulesFromDirectory none 0 fs [path] []).1
        (some (normalizeId d.id))
      = .ok (parsedRule path d) := by
  constructor
  · rw [loadSingle_state hf hid hdesc hrule]
    unfold RuleHubTool.getRuleContentById
    have hfind : toolFind [(normalizeId d.id, parsedRule path d)] d.id = none := by
      simp [toolFind, List.find?, beq_eq_false_iff_ne.mpr hnn]
    simp only [if_neg hid, hfind]
  · exact C1_content_served_from_memory fs path d hf hid hdesc hrule

/-! ## Claim C4 -/

/-- The `AgentRule` that `YamlRuleParser.ParseRule` returns for the
document `d` read from `path`: the id as written in the document,
defaulted tags, and a `FileSource` bound to the same path. -/
def pipelineRule (path : String) (d : YamlDoc) : AgentRule :=
  { RuleId := d.id, Description := d.description, Language := d.language,
    Tags := d.tags.getD [], Source := .file path }

/-- `YamlRuleParser.ParseRule` on a readable, well-formed, valid document
returns exactly `pipelineRule`. -/
theorem ParseRule_ok {fs : FileSys} {path : String} {d : YamlDoc}
    (hp : path ≠ "") (hf : readFs fs path = some (.doc d)) (hid : d.id ≠ "")
    (hdesc : d.description ≠ "") (hrule : d.rule.getD "" ≠ "") :
    YamlRuleParser.ParseRule none 0 fs path = .ok (pipelineRule path d) := by
  unfold YamlRuleParser.ParseRule
  rw [ctxDone_none, hf]
  simp only [if_neg hp]
  show YamlRuleParser.parseContent path (.doc d) = .ok (pipelineRule path d)
  unfold YamlRuleParser.parseContent
  simp only [if_neg hid, if_neg hdesc, if_neg hrule]
  rfl

/-- Inserting a rule and looking its key up returns that rule. -/
theorem mapFind_insert (m : RuleMap) (k : String) (v : AgentRule) :
    mapFind (mapInsert m k v) k = some v := by
  simp [mapFind, mapInsert]

/-- C4: for every valid rule document with non-empty id, description and
content, parsing (`YamlRuleParser.ParseRule`), upserting the resulting
Rule (`InMemoryRepository.AddRuleMetadata`) and then
`GetRuleMetadataById` with that Rule's id returns a Rule whose id,
description, language, tags and content (produced through its attached
Content Source against the same file) equal the document's field values
exactly.  Absent `tags` surface as the empty list, per the data-model
default. -/
theorem C4_parse_upsert_getById_roundtrip (fs : FileSys) (path : String)
    (d : YamlDoc) (m : RuleMap) (rtext : String)
    (hp : path ≠ "") (hf : readFs fs path = some (.doc d)) (hid : d.id ≠ "")
    (hdesc : d.description ≠ "") (hrt : d.rule = some rtext) (hr : rtext ≠ "") :
    YamlRuleParser.ParseRule none 0 fs path = .ok (pipelineRule path d)
      ∧ InMemoryRepository.AddRuleMetadata none m (pipelineRule path d)
          = .ok (mapInsert m d.id (pipelineRule path d))
      ∧ InMemoryRepository.GetRuleMetadataById none
            (mapInsert m d.id (pipelineRule path d)) (pipelineRule path d).RuleId
          = .ok (some (pipelineRule path d))
      ∧ (pipelineRule path d).RuleId = d.id
      ∧ (pipelineRule path d).Description = d.description
      ∧ (pipelineRule path d).Language = d.language
      ∧ (pipelineRule path d).Tags = d.tags.getD []
      ∧ FileSource.GetRuleContent none fs path = .ok rtext := by
  have hrule : d.rule.getD "" ≠ "" := by rw [hrt]; exact hr
  refine ⟨ParseRule_ok hp hf hid hdesc hrule, ?_, ?_, rfl, rfl, rfl, rfl, ?_⟩
  · unfold InMemoryRepository.AddRuleMetadata
    rw [ctxDone_none]
    simp only [pipelineRule, if_neg hid]
    rfl
  · unfold InMemoryRepository.GetRuleMetadataById
    rw [ctxDone_none]
    simp only [pipelineRule, if_neg hid]
    have := mapFind_insert m d.id (pipelineRule path d)
    simp only [pipelineRule] at this
    rw [this]
    rfl
  · unfold FileSource.GetRuleContent
    rw [ctxDone_none, hf]
    simp only [if_neg hp, hrt]
    rfl

/-- The concrete document of the C4 witness, with every optional field
present. -/
def c4doc : YamlDoc :=
  { id := "round-trip", description := "rt", language := "go",
    tags := some ["a", "b"], rule := some "body" }

/-- The file system of the C4 witness. -/
def c4fs : FileSys := [("/r/rt.yaml", .doc c4doc)]

/-- Witness for C4: the round-trip at a concrete document. -/
theorem C4_parse_upsert_getById_roundtrip_witness :
    YamlRuleParser.ParseRule none 0 c4fs "/r/rt.yaml" = .ok (pipelineRule "/r/rt.yaml" c4doc)
      ∧ InMemoryRepository.AddRuleMetadata none [] (pipelineRule "/r/rt.yaml" c4doc)
          = .ok (mapInsert [] c4doc.id (pipelineRule "/r/rt.yaml" c4doc))
      ∧ InMemoryRepository.GetRuleMetadataById none
            (mapInsert [] c4doc.id (pipelineRule "/r/rt.yaml" c4doc))
            (pipelineRule "/r/rt.yaml" c4doc).RuleId
          = .ok (some (pipelineRule "/r/rt.yaml" c4doc))
      ∧ (pipelineRule "/r/rt.yaml" c4doc).RuleId = c4doc.id
      ∧ (pipelineRule "/r/rt.yaml" c4doc).Description = c4doc.description
      ∧ (pipelineRule "/r/rt.yaml" c4doc).Language = c4doc.language
      ∧ (pipelineRule "/r/rt.yaml" c4doc).Tags = c4doc.tags.getD []
      ∧ FileSource.GetRuleContent none c4fs "/r/rt.yaml" = .ok "body" :=
  C4_parse_upsert_getById_roundtrip c4fs "/r/rt.yaml" c4doc [] "body"
    (by decide) (by decide) (by decide) (by decide) (by decide) (by decide)

/-! ## Claim C2 -/

/-- Whenever the loader loop ends with an error, its rules slice is `nil`:
every `return nil, err` in `YamlRuleLoader.LoadRules` discards the rules
accumulated so far. -/
theorem loadLoop_error_empty (ctx : Ctx) (fs : FileSys) :
    ∀ (files : List String) (t : Nat) (acc : List AgentRule),
      (YamlRuleLoader.loadLoop ctx t fs files acc).2.isSome →
        (YamlRuleLoader.loadLoop ctx t fs files acc).1 = [] := by
  intro files
  induction files with
  | nil =>
    intro t acc h
    simp [YamlRuleLoader.loadLoop] at h
  | cons path rest ih =>
    intro t acc h
    unfold YamlRuleLoader.loadLoop at h ⊢
    by_cases hc : ctxDone ctx t = true
    · rw [if_pos hc] at h ⊢
    · rw [if_neg hc] at h ⊢
      cases hpr : YamlRuleParser.ParseRule ctx (t + 1) fs path with
      | error e => rw [hpr] at h; exact ih (t + 2) acc h
      | ok r => rw [hpr] at h; exact ih (t + 2) (acc ++ [r]) h

/-- The rule parsed from the first file of the C2 directory. -/
def c2ruleA : AgentRule :=
  { RuleId := "a-rule", Description := "da", Language := "",
    Tags := [], Source := .file "/r/a.yaml" }

/-- The rule parsed from the second file of the C2 directory. -/
def c2ruleB : AgentRule :=
  { RuleId := "b-rule", Description := "db", Language := "",
    Tags := [], Source := .file "/r/b.yaml" }

/-- The C2 file system: two well-formed rule files. -/
def c2fs : FileSys :=
  [("/r/a.yaml", .doc { id := "a-rule", description := "da", language := "",
                        tags := none, rule := some "ca" }),
   ("/r/b.yaml", .doc { id := "b-rule", description := "db", language := "",
                        tags := none, rule := some "cb" })]

/-- The C2 directory structure. -/
def c2dirs : List (String × List String) := [("/r", ["/r/a.yaml", "/r/b.yaml"])]

/-- The C2 source options. -/
def c2opts : RuleSourceOptions := { LoaderType := "YamlFile", Settings := [("Path", "/r")] }

/-- C2 counterexample: with cancellation observed at the loader's per-file
check before the second file (tick 3) — i.e. after the first file has
already been parsed successfully — `YamlRuleLoader.LoadRules` returns
`nil, ctx.Err()`, not the partial result.  The claim requires the rules
already collected (`[c2ruleA]`, as the uncancelled run of the same
directory shows both files parse) to be returned together with the
cancellation signal, but the code returns the empty slice: partial
results are discarded. -/
theorem C2_cancel_discards_partial_counterexample :
    YamlRuleLoader.LoadRules (some 3) c2opts c2dirs c2fs = ([], some "context canceled")
      ∧ YamlRuleLoader.LoadRules none c2opts c2dirs c2fs = ([c2ruleA, c2ruleB], none)
      ∧ ([] : List AgentRule) ≠ [c2ruleA] := by
  refine ⟨by decide, by decide, by decide⟩

/-- C2 (amended): if the operation context is cancelled while the Loader
is part-way through scanning a directory, the Loader stops enumerating
further files and returns the cancellation signal with an EMPTY rules
slice — the rules already collected from the files processed so far are
discarded, not returned. -/
theorem C2_cancellation_returns_empty (ctx : Ctx) (opts : RuleSourceOptions)
    (dirs : List (String × List String)) (fs : FileSys)
    (h : (YamlRuleLoader.LoadRules ctx opts dirs fs).2.isSome) :
    (YamlRuleLoader.LoadRules ctx opts dirs fs).1 = [] := by
  revert h
  unfold YamlRuleLoader.LoadRules
  split
  · intro _; rfl
  · split
    · intro _; rfl
    · split
      · intro _; rfl
      · split
        · intro _; rfl
        · split
          · intro _; rfl
          · intro h
            exact loadLoop_error_empty ctx fs _ 1 [] h

/-- Witness for C2 (amended): at the concrete cancelled run, the loader's
result is the empty slice. -/
theorem C2_cancellation_returns_empty_witness :
    (YamlRuleLoader.LoadRules (some 3) c2opts c2dirs c2fs).1 = [] :=
  C2_cancellation_returns_empty (some 3) c2opts c2dirs c2fs (by decide)

/-! ## Claim C5 -/

/-- With an uncancellable context the parser is tick-independent. -/
theorem ParseRule_none_tick (t : Nat) (fs : FileSys) (path : String) :
    YamlRuleParser.ParseRule none t fs path = YamlRuleParser.ParseRule none 0 fs path := rfl

/-- With an uncancellable context the loader loop appends exactly the
successfully parsed files, skipping each failing one. -/
theorem loadLoop_none (fs : FileSys) :
    ∀ (files : List String) (t : Nat) (acc : List AgentRule),
      YamlRuleLoader.loadLoop none t fs files acc
        = (acc ++ files.filterMap (fun p => (YamlRuleParser.ParseRule none 0 fs p).toOption),
           none) := by
  intro files
  induction files with
  | nil => intro t acc; simp [YamlRuleLoader.loadLoop]
  | cons path rest ih =>
    intro t acc
    unfold YamlRuleLoader.loadLoop
    rw [ctxDone_none]
    simp only [Bool.false_eq_true, if_false]
    rw [ParseRule_none_tick (t + 1)]
    cases hpr : YamlRuleParser.ParseRule none 0 fs path with
    | error e =>
      show YamlRuleLoader.loadLoop none (t + 2) fs rest acc = _
      rw [ih (t + 2) acc,
          List.filterMap_cons_none (by rw [hpr]; rfl)]
    | ok r =>
      show YamlRuleLoader.loadLoop none (t + 2) fs rest (acc ++ [r]) = _
      rw [ih (t + 2) (acc ++ [r]),
          List.filterMap_cons_some (by rw [hpr]; rfl)]
      simp

/-- The generic count identity behind partial-failure isolation: the
number of parses that succeed equals the number of well-formed inputs. -/
theorem length_filterMap_eq_length_filter {α β : Type} (f : α → Option β) :
    ∀ l : List α, (l.filterMap f).length = (l.filter (fun x => (f x).isSome)).length := by
  intro l
  induction l with
  | nil => rfl
  | cons x xs ih =>
    cases hx : f x with
    | none => simp [List.filterMap_cons_none hx, List.filter_cons, hx, ih]
    | some b => simp [List.filterMap_cons_some hx, List.filter_cons, hx, ih]

/-- C5: a single uncancelled `YamlRuleLoader.LoadRules` call over a
directory returns, without an error, exactly the rules of the files the
parser accepts — each per-file parse failure is skipped and never aborts
the remaining files — and the number of returned rules equals the number
of well-formed files (N out of N + M). -/
theorem C5_loader_partial_failure_isolation (opts : RuleSourceOptions)
    (dirs : List (String × List String)) (fs : FileSys) (path : String)
    (files : List String)
    (hlt : opts.LoaderType ≠ "") (hpath : lookupSetting opts.Settings "Path" = some path)
    (hne : path ≠ "")
    (hdir : (dirs.find? (fun e => e.1 == path)).map (fun e => e.2) = some files) :
    YamlRuleLoader.LoadRules none opts dirs fs
        = (files.filterMap (fun p => (YamlRuleParser.ParseRule none 0 fs p).toOption), none)
      ∧ (YamlRuleLoader.LoadRules none opts dirs fs).1.length
        = (files.filter
            (fun p => (YamlRuleParser.ParseRule none 0 fs p).toOption.isSome)).length := by
  have h1 : YamlRuleLoader.LoadRules none opts dirs fs
      = (files.filterMap (fun p => (YamlRuleParser.ParseRule none 0 fs p).toOption), none) := by
    unfold YamlRuleLoader.LoadRules
    rw [ctxDone_none]
    simp only [Bool.false_eq_true, if_false, if_neg hlt, hpath, if_neg hne, hdir]
    rw [loadLoop_none]
    simp
  refine ⟨h1, ?_⟩
  rw [h1]
  exact length_filterMap_eq_length_filter _ files

/-- The C5 file system: two well-formed rule files and one malformed
one. -/
def c5fs : FileSys :=
  [("/r/good1.yaml", .doc { id := "g1", description := "d1", language := "",
                            tags := none, rule := some "c1" }),
   ("/r/bad.yaml", .invalid "yaml: line 2: mapping values are not allowed in this context"),
   ("/r/good2.yaml", .doc { id := "g2", description := "d2", language := "",
                            tags := none, rule := some "c2" })]

/-- The C5 directory structure: N = 2 well-formed files, M = 1 malformed
file. -/
def c5dirs : List (String × List String) :=
  [("/r", ["/r/bad.yaml", "/r/good1.yaml", "/r/good2.yaml"])]

/-- The C5 source options. -/
def c5opts : RuleSourceOptions := { LoaderType := "YamlFile", Settings := [("Path", "/r")] }

/-- Witness for C5: the loader over the concrete N = 2, M = 1 directory
returns exactly the two rules of the well-formed files. -/
theorem C5_loader_partial_failure_isolation_witness :
    YamlRuleLoader.LoadRules none c5opts c5dirs c5fs
        = (["/r/bad.yaml", "/r/good1.yaml", "/r/good2.yaml"].filterMap
            (fun p => (YamlRuleParser.ParseRule none 0 c5fs p).toOption), none)
      ∧ (YamlRuleLoader.LoadRules none c5opts c5dirs c5fs).1.length
        = (["/r/bad.yaml", "/r/good1.yaml", "/r/good2.yaml"].filter
            (fun p => (YamlRuleParser.ParseRule none 0 c5fs p).toOption.isSome)).length :=
  C5_loader_partial_failure_isolation c5opts c5dirs c5fs "/r"
    ["/r/bad.yaml", "/r/good1.yaml", "/r/good2.yaml"]
    (by decide) (by decide) (by decide) (by decide)

/-! ## C10 machinery -/

theorem digitChar_isDigit (m : Nat) (h : m < 10) : (Nat.digitChar m).isDigit = true := by
  interval_cases m <;> decide

theorem toDigitsCore_digits (fuel : Nat) :
    ∀ (n : Nat) (acc : List Char), (∀ c ∈ acc, c.isDigit = true) →
      ∀ c ∈ Nat.toDigitsCore 10 fuel n acc, c.isDigit = true := by
  induction fuel with
  | zero =>
    intro n acc hacc c hc
    simp only [Nat.toDigitsCore] at hc
    exact hacc c hc
  | succ fuel ih =>
    intro n acc hacc c hc
    simp only [Nat.toDigitsCore] at hc
    by_cases hz : n / 10 = 0
    · rw [if_pos hz] at hc
      rcases List.mem_cons.mp hc with rfl | hmem
      · exact digitChar_isDigit _ (Nat.mod_lt _ (by decide))
      · exact hacc c hmem
    · rw [if_neg hz] at hc
      refine ih (n / 10) _ ?_ c hc
      intro x hx
      rcases List.mem_cons.mp hx with rfl | hmem
      · exact digitChar_isDigit _ (Nat.mod_lt _ (by decide))
      · exact hacc x hmem

theorem toDigitsCore_ne_nil (fuel : Nat) :
    ∀ (n : Nat) (acc : List Char), acc ≠ [] ∨ fuel ≠ 0 →
      Nat.toDigitsCore 10 fuel n acc ≠ [] := by
  induction fuel with
  | zero =>
    intro n acc hd
    simp only [Nat.toDigitsCore]
    rcases hd with h | h
    · exact h
    · exact absurd rfl h
  | succ fuel ih =>
    intro n acc _
    simp only [Nat.toDigitsCore]
    by_cases hz : n / 10 = 0
    · rw [if_pos hz]
      exact List.cons_ne_nil _ _
    · rw [if_neg hz]
      exact ih (n / 10) _ (Or.inl (List.cons_ne_nil _ _))

theorem natRepr_digits (n : Nat) : ∀ c ∈ (Nat.repr n).data, c.isDigit = true := by
  intro c hc
  have he : (Nat.repr n).data = Nat.toDigits 10 n := rfl
  rw [he] at hc
  exact toDigitsCore_digits (n + 1) n [] (by intro x hx; cases hx) c hc

theorem natRepr_ne_nil (n : Nat) : (Nat.repr n).data ≠ [] := by
  have he : (Nat.repr n).data = Nat.toDigits 10 n := rfl
  rw [he]
  exact toDigitsCore_ne_nil (n + 1) n [] (Or.inr (Nat.succ_ne_zero n))

theorem isDigit_ne_dash {c : Char} (h : c.isDigit = true) : c ≠ '-' := by
  intro e; rw [e] at h; exact absurd h (by decide)

theorem isDigit_ne_plus {c : Char} (h : c.isDigit = true) : c ≠ '+' := by
  intro e; rw [e] at h; exact absurd h (by decide)

theorem isDigit_bne_underscore {c : Char} (h : c.isDigit = true) : (c != '_') = true := by
  have hne : c ≠ '_' := by intro e; rw [e] at h; exact absurd h (by decide)
  simpa using hne

theorem intToString_ofNat (m : Nat) : toString (Int.ofNat m) = Nat.repr m := rfl

theorem intToString_negSucc (m : Nat) :
    (toString (Int.negSucc m)).data = '-' :: (Nat.repr (m + 1)).data := by
  show (Int.repr (Int.negSucc m)).data = _
  rw [show Int.repr (Int.negSucc m) = "-" ++ Nat.repr (m + 1) from rfl, String.data_append]
  rfl

theorem intToString_no_underscore (i : Int) :
    ∀ c ∈ (toString i).data, (c != '_') = true := by
  intro c hc
  cases i with
  | ofNat m =>
    rw [intToString_ofNat] at hc
    exact isDigit_bne_underscore (natRepr_digits m c hc)
  | negSucc m =>
    rw [intToString_negSucc] at hc
    rcases List.mem_cons.mp hc with rfl | hmem
    · decide
    · exact isDigit_bne_underscore (natRepr_digits (m + 1) c hmem)

theorem digitsNat?_isSome {l : List Char} (hne : l ≠ [])
    (hdig : ∀ c ∈ l, c.isDigit = true) : (digitsNat? l).isSome = true := by
  unfold digitsNat?
  rw [if_neg]
  · rfl
  · simp [List.isEmpty_iff, hne, List.all_eq_true]
    intro c hc
    exact hdig c hc

theorem atoi_intToString_isSome (i : Int) : (atoi? (toString i)).isSome = true := by
  cases i with
  | ofNat m =>
    unfold atoi?
    rw [intToString_ofNat]
    cases hl : (Nat.repr m).data with
    | nil => exact absurd hl (natRepr_ne_nil m)
    | cons c rest =>
      have hcd : c.isDigit = true :=
        natRepr_digits m c (by rw [hl]; exact List.mem_cons_self c rest)
      have hall : ∀ x ∈ c :: rest, x.isDigit = true := by
        intro x hx
        exact natRepr_digits m x (by rw [hl]; exact hx)
      simp only [atoiList, if_neg (isDigit_ne_dash hcd), if_neg (isDigit_ne_plus hcd)]
      have hs := digitsNat?_isSome (List.cons_ne_nil c rest) hall
      cases hd : digitsNat? (c :: rest) with
      | none => rw [hd] at hs; exact absurd hs (by decide)
      | some n => simp
  | negSucc m =>
    unfold atoi?
    rw [intToString_negSucc]
    simp only [atoiList, if_pos rfl]
    have hs := digitsNat?_isSome (natRepr_ne_nil (m + 1)) (natRepr_digits (m + 1))
    cases hd : digitsNat? (Nat.repr (m + 1)).data with
    | none => rw [hd] at hs; exact absurd hs (by decide)
    | some n => simp

theorem idxSeg_int_tail (i : Int) (tail : List Char) (k : String)
    (hk : k.data = srcRoot.data ++ ((toString i).data ++ '_' :: tail)) :
    (atoi? (idxSeg (trimPfx k srcRoot))).isSome = true := by
  have hpfx : hasPfx k srcRoot = true := by
    unfold hasPfx
    rw [hk]
    exact List.isPrefixOf_iff_prefix.mpr (List.prefix_append _ _)
  unfold trimPfx
  rw [if_pos hpfx]
  unfold idxSeg atoi?
  show (atoiList ((⟨k.data.drop srcRoot.data.length⟩ : String).data.takeWhile
    (fun c => c != '_'))).isSome = true
  rw [show (⟨k.data.drop srcRoot.data.length⟩ : String).data
        = k.data.drop srcRoot.data.length from rfl]
  rw [hk, List.drop_left]
  have ht : List.takeWhile (fun c => c != '_') ((toString i).data ++ '_' :: tail)
      = (toString i).data := by
    rw [List.takeWhile_append]
    rw [List.takeWhile_eq_self_iff.mpr (intToString_no_underscore i)]
    rw [if_pos rfl]
    rw [List.takeWhile_cons]
    simp
  rw [ht]
  exact atoi_intToString_isSome i

theorem no_int_key_form (i : Int) (k : String) (tail : List Char)
    (hbad : atoi? (idxSeg (trimPfx k srcRoot)) = none)
    (hk : k.data = srcRoot.data ++ ((toString i).data ++ '_' :: tail)) : False := by
  have hs := idxSeg_int_tail i tail k hk
  rw [hbad] at hs
  exact absurd hs (by decide)

theorem lookup_key_bne (i : Int) (k : String)
    (hbad : atoi? (idxSeg (trimPfx k srcRoot)) = none) :
    (k == srcRoot ++ toString i ++ "_LOADERTYPE") = false := by
  apply beq_eq_false_iff_ne.mpr
  intro hkey
  apply no_int_key_form i k "LOADERTYPE".data hbad
  rw [hkey, String.data_append, String.data_append]
  rfl

theorem settings_pfx_false (i : Int) (k : String)
    (hbad : atoi? (idxSeg (trimPfx k srcRoot)) = none) :
    hasPfx k (srcRoot ++ toString i ++ "_SETTINGS_") = false := by
  apply Bool.eq_false_iff.mpr
  intro hp
  unfold hasPfx at hp
  obtain ⟨t, ht⟩ := List.isPrefixOf_iff_prefix.mp hp
  apply no_int_key_form i k ("SETTINGS_".data ++ t) hbad
  rw [← ht, String.data_append, String.data_append]
  simp only [List.append_assoc, List.cons_append]

theorem getenv_middle (env1 env2 : Env) (k v key : String)
    (hne : (k == key) = false) :
    getenv (env1 ++ (k, v) :: env2) key = getenv (env1 ++ env2) key := by
  unfold getenv
  rw [List.find?_append, List.find?_append,
      List.find?_cons_of_neg _ (by simp only; rw [hne]; exact Bool.false_ne_true)]

theorem filterMap_middle {b : Type} (f : String × String → Option b)
    (env1 env2 : Env) (kv : String × String) (hf : f kv = none) :
    (env1 ++ kv :: env2).filterMap f = (env1 ++ env2).filterMap f := by
  rw [List.filterMap_append, List.filterMap_append, List.filterMap_cons_none hf]

theorem collectIdx_middle (env1 env2 : Env) (k v : String)
    (hpfx : hasPfx k srcRoot = true)
    (hbad : atoi? (idxSeg (trimPfx k srcRoot)) = none) :
    collectIdx (env1 ++ (k, v) :: env2) = collectIdx (env1 ++ env2) := by
  unfold collectIdx
  rw [filterMap_middle _ _ _ _ (by simp only; rw [if_pos hpfx]; exact hbad)]

theorem loadSrc_middle (env1 env2 : Env) (k v : String) (i : Int)
    (hbad : atoi? (idxSeg (trimPfx k srcRoot)) = none) :
    loadSrc (env1 ++ (k, v) :: env2) i = loadSrc (env1 ++ env2) i := by
  unfold loadSrc
  rw [getenv_middle _ _ _ _ _ (lookup_key_bne i k hbad)]
  rw [filterMap_middle _ _ _ _
    (by simp only; rw [settings_pfx_false i k hbad]; rfl)]

theorem loadSources_middle (env1 env2 : Env) (k v : String)
    (hbad : atoi? (idxSeg (trimPfx k srcRoot)) = none) :
    ∀ idxs : List Int,
      loadSources (env1 ++ (k, v) :: env2) idxs = loadSources (env1 ++ env2) idxs := by
  intro idxs
  induction idxs with
  | nil => rfl
  | cons i rest ih =>
    unfold loadSources
    rw [loadSrc_middle env1 env2 k v i hbad, ih]

/-- C10: an environment variable whose key starts with the sources root
but whose index segment `strconv.Atoi` rejects is silently ignored by
configuration discovery: adding or removing it changes neither the
discovered Source Configurations nor the success/failure of the discovery
step.  Only integer-indexed entries contribute. -/
theorem C10_non_integer_index_ignored (env1 env2 : Env) (k v : String)
    (hpfx : hasPfx k srcRoot = true)
    (hbad : atoi? (idxSeg (trimPfx k srcRoot)) = none) :
    loadConfigFromEnv (env1 ++ (k, v) :: env2) = loadConfigFromEnv (env1 ++ env2) := by
  unfold loadConfigFromEnv
  rw [collectIdx_middle env1 env2 k v hpfx hbad]
  exact loadSources_middle env1 env2 k v hbad _

/-- Witness for C10: a junk-indexed variable amid two real ones changes
nothing. -/
theorem C10_non_integer_index_ignored_witness :
    loadConfigFromEnv
        ([("RULESHUB_SOURCES_0_LOADERTYPE", "YamlFile")] ++
          ("RULESHUB_SOURCES_abc_LOADERTYPE", "Junk") ::
          [("RULESHUB_SOURCES_0_SETTINGS_Path", "/r")])
      = loadConfigFromEnv
        ([("RULESHUB_SOURCES_0_LOADERTYPE", "YamlFile")] ++
          [("RULESHUB_SOURCES_0_SETTINGS_Path", "/r")]) :=
  C10_non_integer_index_ignored
    [("RULESHUB_SOURCES_0_LOADERTYPE", "YamlFile")]
    [("RULESHUB_SOURCES_0_SETTINGS_Path", "/r")]
    "RULESHUB_SOURCES_abc_LOADERTYPE" "Junk" (by decide) (by decide)

/-- The C9 witness document: an id with upper-case letters and a space. -/
def c9doc : YamlDoc :=
  { id := "Go Formatting", description := "x", language := "go",
    tags := none, rule := some "y" }

/-- The C9 witness file system. -/
def c9fs : FileSys := [("/r/g.yaml", .doc c9doc)]

/-- Witness for C9: the rule loaded from `id: "Go Formatting"` is found
under `"go-formatting"` and not under `"Go Formatting"`. -/
theorem C9_lookup_exact_match_witness :
    RuleHubTool.getRuleContentById
        (RuleHubTool.loadRulesFromDirectory none 0 c9fs ["/r/g.yaml"] []).1
        (some c9doc.id)
      = .error ("rule not found: " ++ c9doc.id)
    ∧ RuleHubTool.getRuleContentById
        (RuleHubTool.loadRulesFromDirectory none 0 c9fs ["/r/g.yaml"] []).1
        (some (normalizeId c9doc.id))
      = .ok (parsedRule "/r/g.yaml" c9doc) :=
  C9_lookup_exact_match c9fs "/r/g.yaml" c9doc
    (by decide) (by decide) (by decide) (by decide) (by decide)
